import Mathlib

/-!
# Verification of the vibefs authorization lifecycle (src/vibefs.py)

Shallow embedding of the authorization-store, request-router and CLI logic of
`src/vibefs.py`.  The SQLite tables `authorizations` and `git_authorizations`
are modelled as lists of records in rowid (insertion) order: `INSERT` appends,
`SELECT ... fetchone` (no ORDER BY) is `List.find?`, `UPDATE ... WHERE token`
maps over the list, `DELETE ... WHERE token` filters.  Wall-clock timestamps
(Python floats, seconds since the epoch) are modelled as integers — every
claim concerns only the ordering and the addition of instants, which the
integers carry exactly as the reals do; the token
produced by `secrets.token_hex` is passed in as an explicit `fresh` argument,
and the PRIMARY KEY constraint / negligible-collision assumption appears as
freshness or `Nodup` hypotheses.  Filesystem predicates (`os.path.abspath`,
`os.path.isfile`, `os.path.basename`, the `.git`-directory check) are
parameters bundled in an `OS` structure.
-/

namespace Vibefs

/-- A row of the `authorizations` table (src/vibefs.py:70-78). -/
structure Auth where
  token : String
  filepath : String
  filename : String
  created_at : ℤ
  expires_at : ℤ
deriving DecidableEq, Repr

/-- A row of the `git_authorizations` table (src/vibefs.py:79-87). -/
structure GitAuth where
  token : String
  repo_path : String
  commit_hash : String
  created_at : ℤ
  expires_at : ℤ
deriving DecidableEq, Repr

/-- The status strings returned by `lookup_authorization` /
`lookup_git_authorization`: `'valid'`, `'expired'`, `'not_found'`. -/
inductive LookupStatus where
  | valid
  | expired
  | notFound
deriving DecidableEq, Repr

/-- The operating-system facts `vibefs.py` consults: `os.path.abspath`,
`os.path.isfile`, `os.path.basename`, and the
`os.path.isdir(os.path.join(repo, '.git'))` check of `add_git_authorization`. -/
structure OS where
  abspath : String → String
  isfile : String → Bool
  basename : String → String
  isGitRepo : String → Bool

/-- Per-row effect of `UPDATE authorizations SET expires_at = ? WHERE token = ?`
(src/vibefs.py:111-114). -/
def sql_update_expiry (tk : String) (e : ℤ) (r : Auth) : Auth :=
  if r.token == tk then { r with expires_at := e } else r

/-- Per-row effect of `UPDATE git_authorizations SET expires_at = ? WHERE token = ?`
(src/vibefs.py:201-204). -/
def sql_update_git_expiry (tk : String) (e : ℤ) (r : GitAuth) : GitAuth :=
  if r.token == tk then { r with expires_at := e } else r

/-- `add_authorization(filepath, ttl)` (src/vibefs.py:92-127).  Raising
`FileNotFoundError` is modelled as `none`; on success returns the updated
table together with `(token, filename, is_new)`.  `now` is the single
`time.time()` call, `fresh` the token `secrets.token_hex` would produce in
the insert branch. -/
def add_authorization (os : OS) (db : List Auth) (filepath : String)
    (ttl now : ℤ) (fresh : String) :
    Option (List Auth × String × String × Bool) :=
  let abs_path := os.abspath filepath
  if os.isfile abs_path = false then
    none
  else
    let filename := os.basename abs_path
    -- SELECT token FROM authorizations WHERE filepath = ? AND expires_at > ?
    match db.find? (fun r => r.filepath == abs_path && decide (now < r.expires_at)) with
    | some row =>
        -- UPDATE authorizations SET expires_at = ? WHERE token = ?
        some (db.map (sql_update_expiry row.token (now + ttl)),
              row.token, filename, false)
    | none =>
        -- INSERT INTO authorizations VALUES (?, ?, ?, ?, ?)
        some (db ++ [⟨fresh, abs_path, filename, now, now + ttl⟩],
              fresh, filename, true)

/-- `remove_authorization(token)` (src/vibefs.py:130-137):
`DELETE FROM authorizations WHERE token = ?`, returning the table after the
delete and `cursor.rowcount > 0`. -/
def remove_authorization (db : List Auth) (token : String) : List Auth × Bool :=
  (db.filter (fun r => r.token != token), db.any (fun r => r.token == token))

/-- `lookup_authorization(token)` (src/vibefs.py:150-163): fetch the row by
primary key; `'expired'` iff `time.time() > expires_at`, else `'valid'`. -/
def lookup_authorization (db : List Auth) (token : String) (now : ℤ) :
    Option Auth × LookupStatus :=
  match db.find? (fun r => r.token == token) with
  | none => (none, .notFound)
  | some row => if decide (now > row.expires_at) then (some row, .expired) else (some row, .valid)

/-- `has_active_authorizations()` (src/vibefs.py:166-179):
`(file_cnt + git_cnt) > 0` where each count is over `expires_at > now`. -/
def has_active_authorizations (db : List Auth) (gitDb : List GitAuth) (now : ℤ) : Bool :=
  decide (0 < db.countP (fun r => decide (now < r.expires_at))
            + gitDb.countP (fun r => decide (now < r.expires_at)))

/-- `add_git_authorization(repo_path, commit_hash, ttl)` (src/vibefs.py:185-216).
Raising `ValueError` (not a git repository) is modelled as `none`. -/
def add_git_authorization (os : OS) (db : List GitAuth) (repo_path commit_hash : String)
    (ttl now : ℤ) (fresh : String) :
    Option (List GitAuth × String × Bool) :=
  let abs_repo := os.abspath repo_path
  if os.isGitRepo abs_repo = false then
    none
  else
    match db.find? (fun r =>
        r.repo_path == abs_repo && r.commit_hash == commit_hash
          && decide (now < r.expires_at)) with
    | some row =>
        some (db.map (sql_update_git_expiry row.token (now + ttl)), row.token, false)
    | none =>
        some (db ++ [⟨fresh, abs_repo, commit_hash, now, now + ttl⟩], fresh, true)

/-- `lookup_git_authorization(token)` (src/vibefs.py:219-232). -/
def lookup_git_authorization (db : List GitAuth) (token : String) (now : ℤ) :
    Option GitAuth × LookupStatus :=
  match db.find? (fun r => r.token == token) with
  | none => (none, .notFound)
  | some row => if decide (now > row.expires_at) then (some row, .expired) else (some row, .valid)

/-- A non-empty, all-decimal-digit character list. -/
def isDigits (cs : List Char) : Bool :=
  !cs.isEmpty && cs.all (fun c => c.isDigit)

/-- Decimal value of a digit list. -/
def digitsToNat (cs : List Char) : Nat :=
  cs.foldl (fun n c => n * 10 + (c.toNat - 48)) 0

/-- Python's builtin `int(str)` as used on query-string values
(src/vibefs.py:673-674), on the sign-plus-decimal-digits fragment: an
optional leading `-` or `+` followed by one or more digits; every other
string raises `ValueError`, modelled as `none`.  (Python additionally strips
surrounding whitespace and allows `_` separators, forms no claim exercises.) -/
def pyInt (s : String) : Option Int :=
  match s.toList with
  | '-' :: cs => if isDigits cs then some (-(digitsToNat cs : Int)) else none
  | '+' :: cs => if isDigits cs then some (digitsToNat cs) else none
  | cs => if isDigits cs then some (digitsToNat cs) else none

/-- `head = int(head) if head else None` (src/vibefs.py:671-674):
an absent query parameter (`bottle.request.query.get` → `None`) or the empty
string is treated as absent; any other value goes through `int`, whose
`ValueError` is not caught (`.error ()`, an HTTP 500 from bottle). -/
def parse_window_param (q : Option String) : Except Unit (Option Int) :=
  match q with
  | none => .ok none
  | some s =>
      if s = "" then .ok none
      else
        match pyInt s with
        | some n => .ok (some n)
        | none => .error ()

/-- Python slice `l[:h]` for an `int` bound `h` (negative bounds count from
the end, clamped at zero). -/
def pySliceTo (l : List String) (h : Int) : List String :=
  if 0 ≤ h then l.take h.toNat else l.take (l.length - (-h).toNat)

/-- Python slice `l[s:]` for an `int` start `s` (negative starts count from
the end, clamped at zero). -/
def pySliceFrom (l : List String) (s : Int) : List String :=
  if 0 ≤ s then l.drop s.toNat else l.drop (l.length - (-s).toNat)

/-- The line-window logic shared by `BaseRenderer.render`
(src/vibefs.py:415-422) and `CodeRenderer.render` (src/vibefs.py:435-442):
`if head is not None: lines = lines[:head] elif tail is not None:
lines = lines[-tail:]`. -/
def render_lines (lines : List String) (head tail : Option Int) : List String :=
  match head with
  | some h => pySliceTo lines h
  | none =>
      match tail with
      | some t => pySliceFrom lines (-t)
      | none => lines

/-- Transport-level outcome of the `/f/<token>/<filename>` route.
`expiredPage` is the HTTP 200 body rendered from `EXPIRED_TEMPLATE`, whose
only interpolated datum is the stored display name (`row['filename']`);
`rendered` is the delegation `renderer.render(filepath, head, tail)`;
`serverError` is bottle's HTTP 500 page for an uncaught exception. -/
inductive Response where
  | abort (status : Nat) (message : String)
  | expiredPage (filename : String)
  | rendered (filepath : String) (head tail : Option Int)
  | serverError
deriving DecidableEq, Repr

/-- The HTTP status code each outcome travels with: `bottle.abort(s, _)` → s,
a template/renderer return → 200, an uncaught exception → 500. -/
def Response.httpStatus : Response → Nat
  | .abort s _ => s
  | .expiredPage _ => 200
  | .rendered _ _ _ => 200
  | .serverError => 500

/-- The `serve_file` route handler (src/vibefs.py:657-677).  The `filename`
path segment is accepted but unused by the handler.  The `none` row arm is
unreachable: `lookup_authorization` pairs every non-`notFound` status with a
row (`lookup_some_of_ne_notFound` below). -/
def serve_file (os : OS) (db : List Auth) (now : ℤ) (token filename : String)
    (headQ tailQ : Option String) : Response :=
  match lookup_authorization db token now with
  | (row?, status) =>
    if status = .notFound then .abort 404 "Not found"
    else
      match row? with
      | none => .abort 404 "Not found"
      | some row =>
        if status = .expired then .expiredPage row.filename
        else
          if os.isfile row.filepath = false then
            .abort 404 "File no longer exists on disk"
          else
            match parse_window_param headQ with
            | .error _ => .serverError
            | .ok h? =>
              match parse_window_param tailQ with
              | .error _ => .serverError
              | .ok t? => .rendered row.filepath h? t?

/-- Observable outcome of a click CLI command: remaining store, stdout and
stderr lines, process exit code. -/
structure CliOutcome where
  db : List Auth
  stdout : List String
  stderr : List String
  exitCode : Nat
deriving DecidableEq, Repr

/-- The `revoke` CLI command (src/vibefs.py:975-982).  Both branches return
normally from the command function, so click exits with code 0 in both. -/
def cli_revoke (db : List Auth) (token : String) : CliOutcome :=
  match remove_authorization db token with
  | (db', deleted) =>
    if deleted then
      { db := db', stdout := ["Revoked: " ++ token], stderr := [], exitCode := 0 }
    else
      { db := db', stdout := [], stderr := ["Token not found: " ++ token], exitCode := 0 }

/-! ## Store invariants and reachable states -/

/-- At most one live (non-expired) row per `filepath` in the file store. -/
def AtMostOneLiveFile (db : List Auth) (now : ℤ) : Prop :=
  ∀ r1 ∈ db, ∀ r2 ∈ db, r1.filepath = r2.filepath →
    now < r1.expires_at → now < r2.expires_at → r1 = r2

/-- At most one live (non-expired) row per `(repo_path, commit_hash)` in the
git store. -/
def AtMostOneLiveGit (db : List GitAuth) (now : ℤ) : Prop :=
  ∀ r1 ∈ db, ∀ r2 ∈ db, r1.repo_path = r2.repo_path → r1.commit_hash = r2.commit_hash →
    now < r1.expires_at → now < r2.expires_at → r1 = r2

/-- States reachable through the mutating operations of `vibefs.py`, starting
from the freshly created empty tables.  Time only moves forward; each step's
randomly generated token is recorded with the PRIMARY-KEY freshness fact the
spec's negligible-collision assumption grants. -/
inductive Reachable (os : OS) : List Auth → List GitAuth → ℤ → Prop where
  | init (t : ℤ) : Reachable os [] [] t
  | tick {f g t} (t' : ℤ) : Reachable os f g t → t ≤ t' → Reachable os f g t'
  | addFile {f g t path ttl now fresh f' tok fn isNew} :
      Reachable os f g t → t ≤ now →
      (∀ r ∈ f, r.token ≠ fresh) →
      add_authorization os f path ttl now fresh = some (f', tok, fn, isNew) →
      Reachable os f' g now
  | addGit {f g t repo commit ttl now fresh g' tok isNew} :
      Reachable os f g t → t ≤ now →
      (∀ r ∈ g, r.token ≠ fresh) →
      add_git_authorization os g repo commit ttl now fresh = some (g', tok, isNew) →
      Reachable os f g' now
  | revoke {f g t} (tok : String) (now : ℤ) :
      Reachable os f g t → t ≤ now →
      Reachable os (remove_authorization f tok).1 g now

/-- The inductive invariant: token columns are duplicate-free (PRIMARY KEY)
and each store has at most one live row per resource locator. -/
def Inv (f : List Auth) (g : List GitAuth) (t : ℤ) : Prop :=
  (f.map Auth.token).Nodup ∧ (g.map GitAuth.token).Nodup ∧
    AtMostOneLiveFile f t ∧ AtMostOneLiveGit g t

theorem token_inj {db : List Auth} (hnd : (db.map Auth.token).Nodup)
    {r1 r2 : Auth} (h1 : r1 ∈ db) (h2 : r2 ∈ db) (ht : r1.token = r2.token) : r1 = r2 :=
  List.inj_on_of_nodup_map hnd h1 h2 ht

theorem git_token_inj {db : List GitAuth} (hnd : (db.map GitAuth.token).Nodup)
    {r1 r2 : GitAuth} (h1 : r1 ∈ db) (h2 : r2 ∈ db) (ht : r1.token = r2.token) : r1 = r2 :=
  List.inj_on_of_nodup_map hnd h1 h2 ht

@[simp] theorem sql_update_expiry_token (tk : String) (e : ℤ) (r : Auth) :
    (sql_update_expiry tk e r).token = r.token := by
  unfold sql_update_expiry; split <;> rfl

@[simp] theorem sql_update_expiry_filepath (tk : String) (e : ℤ) (r : Auth) :
    (sql_update_expiry tk e r).filepath = r.filepath := by
  unfold sql_update_expiry; split <;> rfl

@[simp] theorem sql_update_expiry_filename (tk : String) (e : ℤ) (r : Auth) :
    (sql_update_expiry tk e r).filename = r.filename := by
  unfold sql_update_expiry; split <;> rfl

theorem sql_update_expiry_expires_of_eq {tk : String} (e : ℤ) {r : Auth}
    (h : r.token = tk) : (sql_update_expiry tk e r).expires_at = e := by
  unfold sql_update_expiry
  rw [if_pos (beq_iff_eq.mpr h)]

theorem sql_update_expiry_expires_of_ne {tk : String} (e : ℤ) {r : Auth}
    (h : r.token ≠ tk) : (sql_update_expiry tk e r).expires_at = r.expires_at := by
  unfold sql_update_expiry
  rw [if_neg (by simpa using h)]

@[simp] theorem sql_update_git_expiry_token (tk : String) (e : ℤ) (r : GitAuth) :
    (sql_update_git_expiry tk e r).token = r.token := by
  unfold sql_update_git_expiry; split <;> rfl

@[simp] theorem sql_update_git_expiry_repo (tk : String) (e : ℤ) (r : GitAuth) :
    (sql_update_git_expiry tk e r).repo_path = r.repo_path := by
  unfold sql_update_git_expiry; split <;> rfl

@[simp] theorem sql_update_git_expiry_commit (tk : String) (e : ℤ) (r : GitAuth) :
    (sql_update_git_expiry tk e r).commit_hash = r.commit_hash := by
  unfold sql_update_git_expiry; split <;> rfl

theorem sql_update_git_expiry_expires_of_eq {tk : String} (e : ℤ) {r : GitAuth}
    (h : r.token = tk) : (sql_update_git_expiry tk e r).expires_at = e := by
  unfold sql_update_git_expiry
  rw [if_pos (beq_iff_eq.mpr h)]

theorem sql_update_git_expiry_expires_of_ne {tk : String} (e : ℤ) {r : GitAuth}
    (h : r.token ≠ tk) : (sql_update_git_expiry tk e r).expires_at = r.expires_at := by
  unfold sql_update_git_expiry
  rw [if_neg (by simpa using h)]

/-- The expiry update leaves the token column untouched. -/
theorem map_update_tokens (db : List Auth) (tk : String) (e : ℤ) :
    (db.map (sql_update_expiry tk e)).map Auth.token = db.map Auth.token := by
  rw [List.map_map]
  exact List.map_congr_left (fun r _ => sql_update_expiry_token tk e r)

theorem map_update_git_tokens (db : List GitAuth) (tk : String) (e : ℤ) :
    (db.map (sql_update_git_expiry tk e)).map GitAuth.token = db.map GitAuth.token := by
  rw [List.map_map]
  exact List.map_congr_left (fun r _ => sql_update_git_expiry_token tk e r)

theorem amolFile_mono {db : List Auth} {t t' : ℤ}
    (h : AtMostOneLiveFile db t) (hle : t ≤ t') : AtMostOneLiveFile db t' :=
  fun r1 h1 r2 h2 hp e1 e2 =>
    h r1 h1 r2 h2 hp (lt_of_le_of_lt hle e1) (lt_of_le_of_lt hle e2)

theorem amolGit_mono {db : List GitAuth} {t t' : ℤ}
    (h : AtMostOneLiveGit db t) (hle : t ≤ t') : AtMostOneLiveGit db t' :=
  fun r1 h1 r2 h2 hp hc e1 e2 =>
    h r1 h1 r2 h2 hp hc (lt_of_le_of_lt hle e1) (lt_of_le_of_lt hle e2)

/-- The check-then-update branch of `add_authorization` keeps at most one
live row per filepath. -/
theorem amol_file_update {db : List Auth} {now ttl : ℤ} {p : String} {row : Auth}
    (hnd : (db.map Auth.token).Nodup)
    (hamol : AtMostOneLiveFile db now)
    (hfind : db.find? (fun r => r.filepath == p && decide (now < r.expires_at)) = some row) :
    AtMostOneLiveFile (db.map (sql_update_expiry row.token (now + ttl))) now := by
  have hrow_mem : row ∈ db := List.mem_of_find?_eq_some hfind
  have hrow_pred := List.find?_some hfind
  simp only [Bool.and_eq_true, beq_iff_eq, decide_eq_true_eq] at hrow_pred
  intro r1' h1' r2' h2' hp e1 e2
  rw [List.mem_map] at h1' h2'
  obtain ⟨r1, hr1, rfl⟩ := h1'
  obtain ⟨r2, hr2, rfl⟩ := h2'
  rw [sql_update_expiry_filepath, sql_update_expiry_filepath] at hp
  by_cases hc1 : r1.token = row.token
  · by_cases hc2 : r2.token = row.token
    · have : r1 = r2 := token_inj hnd hr1 hr2 (hc1.trans hc2.symm)
      rw [this]
    · -- r2 is untouched and live; it matches `row`'s filepath, so AMOL at `now`
      -- collapses it onto `row`, contradicting the distinct token.
      rw [sql_update_expiry_expires_of_ne _ hc2] at e2
      have h1row : r1 = row := token_inj hnd hr1 hrow_mem hc1
      have hpath : row.filepath = r2.filepath := by rw [← h1row]; exact hp
      have : row = r2 := hamol row hrow_mem r2 hr2 hpath hrow_pred.2 e2
      exact absurd (congrArg Auth.token this.symm) hc2
  · by_cases hc2 : r2.token = row.token
    · rw [sql_update_expiry_expires_of_ne _ hc1] at e1
      have h2row : r2 = row := token_inj hnd hr2 hrow_mem hc2
      have hpath : r1.filepath = row.filepath := by rw [← h2row]; exact hp
      have : r1 = row := hamol r1 hr1 row hrow_mem hpath e1 hrow_pred.2
      exact absurd (congrArg Auth.token this) hc1
    · rw [sql_update_expiry_expires_of_ne _ hc1] at e1
      rw [sql_update_expiry_expires_of_ne _ hc2] at e2
      rw [hamol r1 hr1 r2 hr2 hp e1 e2]

/-- The insert branch of `add_authorization` keeps at most one live row per
filepath: the fresh row is the only live row for its filepath. -/
theorem amol_file_insert {db : List Auth} {now : ℤ} {p : String} {a : Auth}
    (hamol : AtMostOneLiveFile db now)
    (hnone : db.find? (fun r => r.filepath == p && decide (now < r.expires_at)) = none)
    (hpa : a.filepath = p) :
    AtMostOneLiveFile (db ++ [a]) now := by
  have hdead : ∀ r ∈ db, r.filepath = p → ¬ now < r.expires_at := by
    intro r hr hrp
    have := List.find?_eq_none.mp hnone r hr
    simp only [Bool.and_eq_true, beq_iff_eq, decide_eq_true_eq, not_and] at this
    exact this hrp
  intro r1 h1 r2 h2 hp e1 e2
  rw [List.mem_append, List.mem_singleton] at h1 h2
  rcases h1 with h1 | rfl
  · rcases h2 with h2 | rfl
    · exact hamol r1 h1 r2 h2 hp e1 e2
    · exact absurd e1 (hdead r1 h1 (hp.trans hpa))
  · rcases h2 with h2 | rfl
    · exact absurd e2 (hdead r2 h2 (hp.symm.trans hpa))
    · rfl

/-- Deleting rows preserves the one-live-row-per-filepath property. -/
theorem amol_file_filter {db : List Auth} {now : ℤ} (q : Auth → Bool)
    (h : AtMostOneLiveFile db now) : AtMostOneLiveFile (db.filter q) now :=
  fun r1 h1 r2 h2 => h r1 (List.mem_of_mem_filter h1) r2 (List.mem_of_mem_filter h2)

theorem amol_git_update {db : List GitAuth} {now ttl : ℤ} {rp ch : String} {row : GitAuth}
    (hnd : (db.map GitAuth.token).Nodup)
    (hamol : AtMostOneLiveGit db now)
    (hfind : db.find? (fun r =>
        r.repo_path == rp && r.commit_hash == ch && decide (now < r.expires_at)) = some row) :
    AtMostOneLiveGit (db.map (sql_update_git_expiry row.token (now + ttl))) now := by
  have hrow_mem : row ∈ db := List.mem_of_find?_eq_some hfind
  have hrow_pred := List.find?_some hfind
  simp only [Bool.and_eq_true, beq_iff_eq, decide_eq_true_eq] at hrow_pred
  intro r1' h1' r2' h2' hp hc e1 e2
  rw [List.mem_map] at h1' h2'
  obtain ⟨r1, hr1, rfl⟩ := h1'
  obtain ⟨r2, hr2, rfl⟩ := h2'
  rw [sql_update_git_expiry_repo, sql_update_git_expiry_repo] at hp
  rw [sql_update_git_expiry_commit, sql_update_git_expiry_commit] at hc
  by_cases hc1 : r1.token = row.token
  · by_cases hc2 : r2.token = row.token
    · have : r1 = r2 := git_token_inj hnd hr1 hr2 (hc1.trans hc2.symm)
      rw [this]
    · rw [sql_update_git_expiry_expires_of_ne _ hc2] at e2
      have h1row : r1 = row := git_token_inj hnd hr1 hrow_mem hc1
      have hpath : row.repo_path = r2.repo_path := by rw [← h1row]; exact hp
      have hcomm : row.commit_hash = r2.commit_hash := by rw [← h1row]; exact hc
      have : row = r2 := hamol row hrow_mem r2 hr2 hpath hcomm hrow_pred.2 e2
      exact absurd (congrArg GitAuth.token this.symm) hc2
  · by_cases hc2 : r2.token = row.token
    · rw [sql_update_git_expiry_expires_of_ne _ hc1] at e1
      have h2row : r2 = row := git_token_inj hnd hr2 hrow_mem hc2
      have hpath : r1.repo_path = row.repo_path := by rw [← h2row]; exact hp
      have hcomm : r1.commit_hash = row.commit_hash := by rw [← h2row]; exact hc
      have : r1 = row := hamol r1 hr1 row hrow_mem hpath hcomm e1 hrow_pred.2
      exact absurd (congrArg GitAuth.token this) hc1
    · rw [sql_update_git_expiry_expires_of_ne _ hc1] at e1
      rw [sql_update_git_expiry_expires_of_ne _ hc2] at e2
      rw [hamol r1 hr1 r2 hr2 hp hc e1 e2]

theorem amol_git_insert {db : List GitAuth} {now : ℤ} {rp ch : String} {a : GitAuth}
    (hamol : AtMostOneLiveGit db now)
    (hnone : db.find? (fun r =>
        r.repo_path == rp && r.commit_hash == ch && decide (now < r.expires_at)) = none)
    (hra : a.repo_path = rp) (hca : a.commit_hash = ch) :
    AtMostOneLiveGit (db ++ [a]) now := by
  have hdead : ∀ r ∈ db, r.repo_path = rp → r.commit_hash = ch → ¬ now < r.expires_at := by
    intro r hr hrp hrc
    have := List.find?_eq_none.mp hnone r hr
    simp only [Bool.and_eq_true, beq_iff_eq, decide_eq_true_eq, not_and] at this
    exact this ⟨hrp, hrc⟩
  intro r1 h1 r2 h2 hp hc e1 e2
  rw [List.mem_append, List.mem_singleton] at h1 h2
  rcases h1 with h1 | rfl
  · rcases h2 with h2 | rfl
    · exact hamol r1 h1 r2 h2 hp hc e1 e2
    · exact absurd e1 (hdead r1 h1 (hp.trans hra) (hc.trans hca))
  · rcases h2 with h2 | rfl
    · exact absurd e2 (hdead r2 h2 (hp.symm.trans hra) (hc.symm.trans hca))
    · rfl

/-- Every reachable pair of stores satisfies the inductive invariant. -/
theorem reachable_inv {os : OS} {f : List Auth} {g : List GitAuth} {t : ℤ}
    (h : Reachable os f g t) : Inv f g t := by
  induction h with
  | init t =>
      refine ⟨List.nodup_nil, List.nodup_nil, ?_, ?_⟩
      · intro r hr; exact absurd hr (List.not_mem_nil r)
      · intro r hr; exact absurd hr (List.not_mem_nil r)
  | tick t' _ hle ih =>
      exact ⟨ih.1, ih.2.1, amolFile_mono ih.2.2.1 hle, amolGit_mono ih.2.2.2 hle⟩
  | addFile _ hle hfresh hadd ih =>
      obtain ⟨hndf, hndg, hamf, hamg⟩ := ih
      have hamf' := amolFile_mono hamf hle
      have hamg' := amolGit_mono hamg hle
      simp only [add_authorization] at hadd
      split at hadd
      · exact absurd hadd (by simp)
      · split at hadd
        · -- extend branch
          simp only [Option.some.injEq, Prod.mk.injEq] at hadd
          obtain ⟨rfl, -, -, -⟩ := hadd
          refine ⟨?_, hndg, ?_, hamg'⟩
          · rw [map_update_tokens]; exact hndf
          · exact amol_file_update hndf hamf' (by assumption)
        · -- insert branch
          simp only [Option.some.injEq, Prod.mk.injEq] at hadd
          obtain ⟨rfl, -, -, -⟩ := hadd
          refine ⟨?_, hndg, ?_, hamg'⟩
          · rw [List.map_append]
            rw [List.nodup_append]
            refine ⟨hndf, List.nodup_singleton _, ?_⟩
            intro x hx
            rw [List.mem_map] at hx
            obtain ⟨r, hr, rfl⟩ := hx
            simp only [List.map_cons, List.map_nil, List.mem_singleton]
            exact fun hmem => hfresh r hr hmem
          · exact amol_file_insert hamf' (by assumption) rfl
  | addGit _ hle hfresh hadd ih =>
      obtain ⟨hndf, hndg, hamf, hamg⟩ := ih
      have hamf' := amolFile_mono hamf hle
      have hamg' := amolGit_mono hamg hle
      simp only [add_git_authorization] at hadd
      split at hadd
      · exact absurd hadd (by simp)
      · split at hadd
        · simp only [Option.some.injEq, Prod.mk.injEq] at hadd
          obtain ⟨rfl, -, -⟩ := hadd
          refine ⟨hndf, ?_, hamf', ?_⟩
          · rw [map_update_git_tokens]; exact hndg
          · exact amol_git_update hndg hamg' (by assumption)
        · simp only [Option.some.injEq, Prod.mk.injEq] at hadd
          obtain ⟨rfl, -, -⟩ := hadd
          refine ⟨hndf, ?_, hamf', ?_⟩
          · rw [List.map_append]
            rw [List.nodup_append]
            refine ⟨hndg, List.nodup_singleton _, ?_⟩
            intro x hx
            rw [List.mem_map] at hx
            obtain ⟨r, hr, rfl⟩ := hx
            simp only [List.map_cons, List.map_nil, List.mem_singleton]
            exact fun hmem => hfresh r hr hmem
          · exact amol_git_insert hamg' (by assumption) rfl rfl
  | revoke tok now _ hle ih =>
      obtain ⟨hndf, hndg, hamf, hamg⟩ := ih
      refine ⟨?_, hndg, amol_file_filter _ (amolFile_mono hamf hle), amolGit_mono hamg hle⟩
      exact ((List.filter_sublist _).map Auth.token).nodup hndf

/-! ## Lookup helper lemmas -/

/-- With a duplicate-free token column, the primary-key fetch finds exactly
the member row bearing the token. -/
theorem find?_token_of_mem {db : List Auth} {row : Auth} {tk : String}
    (hnd : (db.map Auth.token).Nodup) (hmem : row ∈ db) (htok : row.token = tk) :
    db.find? (fun r => r.token == tk) = some row := by
  induction db with
  | nil => exact absurd hmem (List.not_mem_nil row)
  | cons a l ih =>
      rw [List.map_cons, List.nodup_cons] at hnd
      rcases List.mem_cons.mp hmem with rfl | hmem'
      · rw [List.find?_cons_of_pos _ (by simp [htok])]
      · have hne : (a.token == tk) = false := by
          refine beq_eq_false_iff_ne.mpr fun h => hnd.1 ?_
          rw [h, ← htok]
          exact List.mem_map_of_mem Auth.token hmem'
        rw [List.find?_cons_of_neg _ (by simp [hne])]
        exact ih hnd.2 hmem'

/-- Evaluation: a fetched, unexpired row is reported `valid`. -/
theorem lookup_eq_valid {db : List Auth} {tok : String} {now : ℤ} {row : Auth}
    (hfind : db.find? (fun r => r.token == tok) = some row)
    (hle : now ≤ row.expires_at) :
    lookup_authorization db tok now = (some row, LookupStatus.valid) := by
  have hnlt : ¬ row.expires_at < now := not_lt.mpr hle
  unfold lookup_authorization
  rw [hfind]
  simp [hnlt]

/-- Evaluation: a fetched row past its expiry is reported `expired`. -/
theorem lookup_eq_expired {db : List Auth} {tok : String} {now : ℤ} {row : Auth}
    (hfind : db.find? (fun r => r.token == tok) = some row)
    (hgt : row.expires_at < now) :
    lookup_authorization db tok now = (some row, LookupStatus.expired) := by
  unfold lookup_authorization
  rw [hfind]
  simp [hgt]

/-- Evaluation: a token with no row is reported `notFound`. -/
theorem lookup_eq_notFound {db : List Auth} {tok : String} {now : ℤ}
    (hfind : db.find? (fun r => r.token == tok) = none) :
    lookup_authorization db tok now = (none, LookupStatus.notFound) := by
  unfold lookup_authorization
  rw [hfind]

/-- `has_active_authorizations` is true exactly when one of the two stores
holds a row with `expires_at > now`. -/
theorem has_active_iff (db : List Auth) (gitDb : List GitAuth) (now : ℤ) :
    has_active_authorizations db gitDb now = true ↔
      (∃ r ∈ db, now < r.expires_at) ∨ (∃ g ∈ gitDb, now < g.expires_at) := by
  unfold has_active_authorizations
  rw [decide_eq_true_eq, add_pos_iff, List.countP_pos_iff, List.countP_pos_iff]
  simp only [decide_eq_true_eq]

/-! ## Claim theorems -/

/-- A concrete operating system for witness states: every path is its own
absolute path and basename, every path is a regular file and a git repo. -/
def os0 : OS :=
  { abspath := id, isfile := fun _ => true, basename := id, isGitRepo := fun _ => true }

/-- C2: for every path that resolves to an existing regular file and every
ttl > 0, `add_authorization` (createOrExtend) followed immediately by
`lookup_authorization` of the returned token yields status `valid`, and the
looked-up record carries the token that was returned.  The `Nodup` and
freshness hypotheses model the PRIMARY KEY constraint and the random token. -/
theorem c2_create_then_lookup_valid (os : OS) (db : List Auth) (path : String)
    (ttl now : ℤ) (fresh : String)
    (hnd : (db.map Auth.token).Nodup)
    (hfresh : ∀ r ∈ db, r.token ≠ fresh)
    (hfile : os.isfile (os.abspath path) = true)
    (httl : 0 < ttl) :
    ∃ db' tok fn isNew,
      add_authorization os db path ttl now fresh = some (db', tok, fn, isNew) ∧
      ∃ row, lookup_authorization db' tok now = (some row, LookupStatus.valid) ∧
        row.token = tok := by
  unfold add_authorization
  rw [if_neg (by simp [hfile])]
  cases hfind : db.find?
      (fun r => r.filepath == os.abspath path && decide (now < r.expires_at)) with
  | some row =>
      refine ⟨_, _, _, _, rfl, ?_⟩
      have hmem := List.mem_of_find?_eq_some hfind
      have hfind2 : (db.map (sql_update_expiry row.token (now + ttl))).find?
          (fun r => r.token == row.token)
          = some (sql_update_expiry row.token (now + ttl) row) := by
        rw [List.find?_map]
        have hpred :
            ((fun r : Auth => r.token == row.token) ∘ sql_update_expiry row.token (now + ttl))
              = fun r : Auth => r.token == row.token := by
          funext r
          simp [Function.comp, sql_update_expiry_token]
        rw [hpred, find?_token_of_mem hnd hmem rfl, Option.map_some']
      refine ⟨_, lookup_eq_valid hfind2 ?_, sql_update_expiry_token _ _ _⟩
      rw [sql_update_expiry_expires_of_eq _ rfl]
      linarith
  | none =>
      refine ⟨_, _, _, _, rfl, ?_⟩
      have hfind2 : (db ++
            [(⟨fresh, os.abspath path, os.basename (os.abspath path), now, now + ttl⟩ : Auth)]).find?
          (fun r => r.token == fresh)
          = some ⟨fresh, os.abspath path, os.basename (os.abspath path), now, now + ttl⟩ := by
        rw [List.find?_append, List.find?_eq_none.mpr fun r hr => by simpa using hfresh r hr,
          Option.none_or, List.find?_cons_of_pos _ (by simp)]
      refine ⟨_, lookup_eq_valid hfind2 ?_, rfl⟩
      show now ≤ now + ttl
      linarith

/-- C2 witness at a concrete state: empty store, path `/tmp/report.txt`,
ttl 5, token `aaaa1111`. -/
theorem c2_create_then_lookup_valid_witness :
    ∃ db' tok fn isNew,
      add_authorization os0 [] "/tmp/report.txt" 5 0 "aaaa1111"
          = some (db', tok, fn, isNew) ∧
      ∃ row, lookup_authorization db' tok 0 = (some row, LookupStatus.valid) ∧
        row.token = tok :=
  c2_create_then_lookup_valid os0 [] "/tmp/report.txt" 5 0 "aaaa1111"
    (by simp) (by simp) (by decide) (by decide)

/-- C4: `lookup_authorization` classifies a token as `valid` iff its record
exists and `now ≤ expires_at`, `expired` iff it exists and `now > expires_at`,
`notFound` iff no record exists; the read is a pure function of the store (it
executes no DELETE/UPDATE), so an expired token keeps reporting `expired`, not
`notFound`, at every later instant until a mutation removes the row. -/
theorem c4_lookup_trichotomy (db : List Auth) (tok : String) (now now' : ℤ)
    (hnd : (db.map Auth.token).Nodup) :
    ((lookup_authorization db tok now).2 = LookupStatus.valid ↔
        ∃ r ∈ db, r.token = tok ∧ now ≤ r.expires_at) ∧
    ((lookup_authorization db tok now).2 = LookupStatus.expired ↔
        ∃ r ∈ db, r.token = tok ∧ r.expires_at < now) ∧
    ((lookup_authorization db tok now).2 = LookupStatus.notFound ↔
        ∀ r ∈ db, r.token ≠ tok) ∧
    (now ≤ now' → (lookup_authorization db tok now).2 = LookupStatus.expired →
        (lookup_authorization db tok now').2 = LookupStatus.expired) := by
  cases hfind : db.find? (fun r => r.token == tok) with
  | none =>
      have hall : ∀ r ∈ db, r.token ≠ tok := fun r hr => by
        simpa using List.find?_eq_none.mp hfind r hr
      rw [@lookup_eq_notFound db tok now hfind, @lookup_eq_notFound db tok now' hfind]
      refine ⟨?_, ?_, ?_, ?_⟩
      · simp only [false_iff, reduceCtorEq]
        rintro ⟨r, hr, htk, -⟩
        exact hall r hr htk
      · simp only [false_iff, reduceCtorEq]
        rintro ⟨r, hr, htk, -⟩
        exact hall r hr htk
      · simpa using hall
      · intro _ h
        exact absurd h (by simp)
  | some row =>
      have hmem := List.mem_of_find?_eq_some hfind
      have htok : row.token = tok := by simpa using List.find?_some hfind
      have hwit : ∀ r ∈ db, r.token = tok → r = row := fun r hr htk =>
        token_inj hnd hr hmem (htk.trans htok.symm)
      by_cases hlt : row.expires_at < now
      · rw [@lookup_eq_expired db tok now row hfind hlt]
        refine ⟨?_, ?_, ?_, ?_⟩
        · simp only [false_iff, reduceCtorEq]
          rintro ⟨r, hr, htk, hle⟩
          rw [hwit r hr htk] at hle
          exact absurd hlt (not_lt.mpr hle)
        · simp only [true_iff]
          exact ⟨row, hmem, htok, hlt⟩
        · simp only [false_iff, reduceCtorEq]
          push_neg
          exact ⟨row, hmem, htok⟩
        · intro hle _
          rw [@lookup_eq_expired db tok now' row hfind (lt_of_lt_of_le hlt hle)]
      · have hle' : now ≤ row.expires_at := not_lt.mp hlt
        rw [@lookup_eq_valid db tok now row hfind hle']
        refine ⟨?_, ?_, ?_, ?_⟩
        · simp only [true_iff]
          exact ⟨row, hmem, htok, hle'⟩
        · simp only [false_iff, reduceCtorEq]
          rintro ⟨r, hr, htk, hgt⟩
          rw [hwit r hr htk] at hgt
          exact hlt hgt
        · simp only [false_iff, reduceCtorEq]
          push_neg
          exact ⟨row, hmem, htok⟩
        · intro _ h
          exact absurd h (by simp)

/-- C4 witness: a one-row store with the row expired at the query time and a
later query time. -/
theorem c4_lookup_trichotomy_witness :
    ((lookup_authorization [⟨"aaaa1111", "/a", "a", 0, 5⟩] "aaaa1111" 6).2
        = LookupStatus.valid ↔
      ∃ r ∈ [(⟨"aaaa1111", "/a", "a", 0, 5⟩ : Auth)],
        r.token = "aaaa1111" ∧ (6 : ℤ) ≤ r.expires_at) ∧
    ((lookup_authorization [⟨"aaaa1111", "/a", "a", 0, 5⟩] "aaaa1111" 6).2
        = LookupStatus.expired ↔
      ∃ r ∈ [(⟨"aaaa1111", "/a", "a", 0, 5⟩ : Auth)],
        r.token = "aaaa1111" ∧ r.expires_at < (6 : ℤ)) ∧
    ((lookup_authorization [⟨"aaaa1111", "/a", "a", 0, 5⟩] "aaaa1111" 6).2
        = LookupStatus.notFound ↔
      ∀ r ∈ [(⟨"aaaa1111", "/a", "a", 0, 5⟩ : Auth)], r.token ≠ "aaaa1111") ∧
    ((6 : ℤ) ≤ 7 →
      (lookup_authorization [⟨"aaaa1111", "/a", "a", 0, 5⟩] "aaaa1111" 6).2
          = LookupStatus.expired →
      (lookup_authorization [⟨"aaaa1111", "/a", "a", 0, 5⟩] "aaaa1111" 7).2
          = LookupStatus.expired) :=
  c4_lookup_trichotomy [⟨"aaaa1111", "/a", "a", 0, 5⟩] "aaaa1111" 6 7 (by simp)

/-- C5: `remove_authorization` (revoke) returns true iff a record bearing the
token existed; afterwards `lookup_authorization` of that token answers
`notFound`, and a second revoke of the same token returns false. -/
theorem c5_revoke_idempotent (db : List Auth) (tok : String) (now : ℤ) :
    ((remove_authorization db tok).2 = true ↔ ∃ r ∈ db, r.token = tok) ∧
    lookup_authorization (remove_authorization db tok).1 tok now
        = (none, LookupStatus.notFound) ∧
    (remove_authorization (remove_authorization db tok).1 tok).2 = false := by
  have hgone : ∀ r ∈ (remove_authorization db tok).1, r.token ≠ tok := by
    intro r hr
    have := (List.mem_filter.mp hr).2
    simpa using this
  refine ⟨?_, ?_, ?_⟩
  · simp [remove_authorization, List.any_eq_true]
  · unfold lookup_authorization
    rw [List.find?_eq_none.mpr fun r hr => by simpa using hgone r hr]
  · unfold remove_authorization
    simp only [List.any_eq_false]
    intro r hr
    have := hgone r hr
    simpa using this

/-- C6: `has_active_authorizations` is true iff some record in the file store
or the git store satisfies `expires_at > now`; it is true immediately after
any successful `add_authorization`/`add_git_authorization` with ttl > 0, and
false whenever every record of both stores has already expired. -/
theorem c6_has_active (os : OS) (db : List Auth) (gitDb : List GitAuth) (now : ℤ) :
    (has_active_authorizations db gitDb now = true ↔
        (∃ r ∈ db, now < r.expires_at) ∨ (∃ g ∈ gitDb, now < g.expires_at)) ∧
    (∀ path ttl fresh db' tok fn isNew, 0 < ttl →
      add_authorization os db path ttl now fresh = some (db', tok, fn, isNew) →
      has_active_authorizations db' gitDb now = true) ∧
    (∀ repo commit ttl fresh g' tok isNew, 0 < ttl →
      add_git_authorization os gitDb repo commit ttl now fresh = some (g', tok, isNew) →
      has_active_authorizations db g' now = true) ∧
    ((∀ r ∈ db, r.expires_at ≤ now) → (∀ g ∈ gitDb, g.expires_at ≤ now) →
      has_active_authorizations db gitDb now = false) := by
  refine ⟨has_active_iff db gitDb now, ?_, ?_, ?_⟩
  · intro path ttl fresh db' tok fn isNew httl hadd
    simp only [add_authorization] at hadd
    split at hadd
    · exact absurd hadd (by simp)
    · split at hadd
      · rename_i row hfind
        simp only [Option.some.injEq, Prod.mk.injEq] at hadd
        obtain ⟨rfl, -, -, -⟩ := hadd
        refine (has_active_iff _ _ _).mpr (Or.inl ?_)
        refine ⟨sql_update_expiry row.token (now + ttl) row,
          List.mem_map_of_mem _ (List.mem_of_find?_eq_some hfind), ?_⟩
        rw [sql_update_expiry_expires_of_eq _ rfl]
        linarith
      · simp only [Option.some.injEq, Prod.mk.injEq] at hadd
        obtain ⟨rfl, -, -, -⟩ := hadd
        refine (has_active_iff _ _ _).mpr (Or.inl ?_)
        exact ⟨_, List.mem_append_right _ (List.mem_singleton_self _), by
          show now < now + ttl; linarith⟩
  · intro repo commit ttl fresh g' tok isNew httl hadd
    simp only [add_git_authorization] at hadd
    split at hadd
    · exact absurd hadd (by simp)
    · split at hadd
      · rename_i row hfind
        simp only [Option.some.injEq, Prod.mk.injEq] at hadd
        obtain ⟨rfl, -, -⟩ := hadd
        refine (has_active_iff _ _ _).mpr (Or.inr ?_)
        refine ⟨sql_update_git_expiry row.token (now + ttl) row,
          List.mem_map_of_mem _ (List.mem_of_find?_eq_some hfind), ?_⟩
        rw [sql_update_git_expiry_expires_of_eq _ rfl]
        linarith
      · simp only [Option.some.injEq, Prod.mk.injEq] at hadd
        obtain ⟨rfl, -, -⟩ := hadd
        refine (has_active_iff _ _ _).mpr (Or.inr ?_)
        exact ⟨_, List.mem_append_right _ (List.mem_singleton_self _), by
          show now < now + ttl; linarith⟩
  · intro hf hg
    rw [Bool.eq_false_iff]
    intro h
    rcases (has_active_iff db gitDb now).mp h with ⟨r, hr, hlt⟩ | ⟨g, hgm, hlt⟩
    · exact absurd hlt (not_lt.mpr (hf r hr))
    · exact absurd hlt (not_lt.mpr (hg g hgm))

/-- C6 witness: the iff and the all-expired clause on a one-expired-row store,
and the after-add clause on a successful fresh insert. -/
theorem c6_has_active_witness :
    has_active_authorizations
        [⟨"aaaa1111", "/a", "/a", 0, (10 : ℤ)⟩] [] (0 : ℤ) = true ∧
    has_active_authorizations [⟨"bbbb2222", "/b", "b", 0, (1 : ℤ)⟩] [] (2 : ℤ) = false := by
  constructor
  · exact (c6_has_active os0 [] [] 0).2.1 "/a" 10 "aaaa1111"
      [⟨"aaaa1111", "/a", "/a", 0, 10⟩] "aaaa1111" "/a" true (by decide) (by decide)
  · exact (c6_has_active os0 [⟨"bbbb2222", "/b", "b", 0, 1⟩] [] 2).2.2.2
      (by intro r hr; rw [List.mem_singleton] at hr; rw [hr]; norm_num)
      (by intro g hg; exact absurd hg (List.not_mem_nil g))

/-- C1: at every reachable state each store holds at most one live
(non-expired) authorization per resource locator (`filepath` for files,
`(repo_path, commit_hash)` for git); calling createOrExtend for a resource
that already has a live authorization returns with isNew = false, mints no
row (the token column is unchanged), returns the live row's token and sets
that token's `expires_at` to `now + ttl`; calling it for a resource whose
authorizations are all expired or absent inserts exactly one fresh row whose
token is distinct from every stored token, the expired ones for that
resource included, and returns it with isNew = true. -/
theorem c1_at_most_one_live (os : OS) (f : List Auth) (g : List GitAuth) (t : ℤ)
    (h : Reachable os f g t) :
    AtMostOneLiveFile f t ∧ AtMostOneLiveGit g t ∧
    (∀ path ttl now fresh f' tok fn isNew,
      add_authorization os f path ttl now fresh = some (f', tok, fn, isNew) →
      ((∃ r ∈ f, r.filepath = os.abspath path ∧ now < r.expires_at) →
        isNew = false ∧ f'.map Auth.token = f.map Auth.token ∧
        (∃ r ∈ f, r.filepath = os.abspath path ∧ now < r.expires_at ∧ tok = r.token) ∧
        (∀ r' ∈ f', r'.token = tok → r'.expires_at = now + ttl)) ∧
      ((∀ r ∈ f, r.filepath = os.abspath path → r.expires_at ≤ now) →
        (∀ r ∈ f, r.token ≠ fresh) →
        isNew = true ∧ tok = fresh ∧ (∀ r ∈ f, r.token ≠ tok) ∧
        f' = f ++ [⟨fresh, os.abspath path, os.basename (os.abspath path), now, now + ttl⟩])) ∧
    (∀ repo commit ttl now fresh g' tok isNew,
      add_git_authorization os g repo commit ttl now fresh = some (g', tok, isNew) →
      ((∃ r ∈ g, r.repo_path = os.abspath repo ∧ r.commit_hash = commit ∧
          now < r.expires_at) →
        isNew = false ∧ g'.map GitAuth.token = g.map GitAuth.token ∧
        (∃ r ∈ g, r.repo_path = os.abspath repo ∧ r.commit_hash = commit ∧
          now < r.expires_at ∧ tok = r.token) ∧
        (∀ r' ∈ g', r'.token = tok → r'.expires_at = now + ttl)) ∧
      ((∀ r ∈ g, r.repo_path = os.abspath repo → r.commit_hash = commit →
          r.expires_at ≤ now) →
        (∀ r ∈ g, r.token ≠ fresh) →
        isNew = true ∧ tok = fresh ∧ (∀ r ∈ g, r.token ≠ tok) ∧
        g' = g ++ [⟨fresh, os.abspath repo, commit, now, now + ttl⟩])) := by
  obtain ⟨hndf, hndg, hamf, hamg⟩ := reachable_inv h
  refine ⟨hamf, hamg, ?_, ?_⟩
  · intro path ttl now fresh f' tok fn isNew hadd
    simp only [add_authorization] at hadd
    split at hadd
    · exact absurd hadd (by simp)
    · split at hadd
      · rename_i row hfind
        simp only [Option.some.injEq, Prod.mk.injEq] at hadd
        obtain ⟨rfl, rfl, rfl, rfl⟩ := hadd
        have hrowmem := List.mem_of_find?_eq_some hfind
        have hrowpred := List.find?_some hfind
        simp only [Bool.and_eq_true, beq_iff_eq, decide_eq_true_eq] at hrowpred
        constructor
        · intro _hlive
          refine ⟨rfl, map_update_tokens f row.token (now + ttl),
            ⟨row, hrowmem, hrowpred.1, hrowpred.2, rfl⟩, ?_⟩
          intro r' hr' htk
          rw [List.mem_map] at hr'
          obtain ⟨s, hs, rfl⟩ := hr'
          rw [sql_update_expiry_token] at htk
          exact sql_update_expiry_expires_of_eq _ htk
        · intro hdead _
          exact absurd hrowpred.2 (not_lt.mpr (hdead row hrowmem hrowpred.1))
      · rename_i hfind
        simp only [Option.some.injEq, Prod.mk.injEq] at hadd
        obtain ⟨rfl, rfl, rfl, rfl⟩ := hadd
        constructor
        · rintro ⟨r, hr, hrp, hrl⟩
          have := List.find?_eq_none.mp hfind r hr
          simp only [Bool.and_eq_true, beq_iff_eq, decide_eq_true_eq, not_and] at this
          exact absurd hrl (this hrp)
        · intro _ hfresh
          exact ⟨rfl, rfl, hfresh, rfl⟩
  · intro repo commit ttl now fresh g' tok isNew hadd
    simp only [add_git_authorization] at hadd
    split at hadd
    · exact absurd hadd (by simp)
    · split at hadd
      · rename_i row hfind
        simp only [Option.some.injEq, Prod.mk.injEq] at hadd
        obtain ⟨rfl, rfl, rfl⟩ := hadd
        have hrowmem := List.mem_of_find?_eq_some hfind
        have hrowpred := List.find?_some hfind
        simp only [Bool.and_eq_true, beq_iff_eq, decide_eq_true_eq] at hrowpred
        constructor
        · intro _hlive
          refine ⟨rfl, map_update_git_tokens g row.token (now + ttl),
            ⟨row, hrowmem, hrowpred.1.1, hrowpred.1.2, hrowpred.2, rfl⟩, ?_⟩
          intro r' hr' htk
          rw [List.mem_map] at hr'
          obtain ⟨s, hs, rfl⟩ := hr'
          rw [sql_update_git_expiry_token] at htk
          exact sql_update_git_expiry_expires_of_eq _ htk
        · intro hdead _
          exact absurd hrowpred.2
            (not_lt.mpr (hdead row hrowmem hrowpred.1.1 hrowpred.1.2))
      · rename_i hfind
        simp only [Option.some.injEq, Prod.mk.injEq] at hadd
        obtain ⟨rfl, rfl, rfl⟩ := hadd
        constructor
        · rintro ⟨r, hr, hrp, hrc, hrl⟩
          have := List.find?_eq_none.mp hfind r hr
          simp only [Bool.and_eq_true, beq_iff_eq, decide_eq_true_eq, not_and] at this
          exact absurd hrl (this ⟨hrp, hrc⟩)
        · intro _ hfresh
          exact ⟨rfl, rfl, hfresh, rfl⟩

/-- C1 witness: the state reached by authorizing `/a` for 10 seconds at time 0
from the empty stores satisfies the one-live-row invariants. -/
theorem c1_at_most_one_live_witness :
    AtMostOneLiveFile [⟨"aaaa1111", "/a", "/a", 0, 10⟩] 0 ∧ AtMostOneLiveGit [] 0 := by
  have hadd : add_authorization os0 [] "/a" 10 0 "aaaa1111"
      = some ([⟨"aaaa1111", "/a", "/a", 0, 10⟩], "aaaa1111", "/a", true) := by decide
  have hreach : Reachable os0 [⟨"aaaa1111", "/a", "/a", 0, 10⟩] [] 0 :=
    Reachable.addFile (Reachable.init 0) le_rfl (by simp) hadd
  have h := c1_at_most_one_live os0 [⟨"aaaa1111", "/a", "/a", 0, 10⟩] [] 0 hreach
  exact ⟨h.1, h.2.1⟩

/-- C3 counterexample: with a live authorization for `/a` expiring at 100,
re-issuing at now = 1 with ttl = 10 returns the same token with isNew = false
but RESETS the expiry to `now + ttl = 11`, which is strictly smaller than the
previous 100 — the code sets `expires_at = now + ttl` unconditionally, so the
new expiresAt is NOT strictly greater than the previous one and expiry CAN be
shortened. -/
theorem c3_counterexample :
    add_authorization os0 [⟨"t1", "/a", "a", 0, 100⟩] "/a" 10 1 "t2"
        = some ([⟨"t1", "/a", "a", 0, 11⟩], "t1", "/a", false) ∧
    ¬ ((100 : ℤ) < 11) := by decide

/-- C3 (amended): re-authorizing a resource with a currently live
authorization returns the identical token with isNew = false and sets the
record's `expires_at` to `now + ttl`, minting no row; the new expiry strictly
exceeds the previous one only when `now + ttl` exceeds it — when the new ttl
is smaller than the remaining lifetime the expiry is shortened (see the
counterexample). -/
theorem c3_extend_sets_now_plus_ttl (os : OS) (db : List Auth) (path : String)
    (ttl now : ℤ) (fresh : String) (r : Auth)
    (hamol : AtMostOneLiveFile db now)
    (hmem : r ∈ db) (hpath : r.filepath = os.abspath path)
    (hlive : now < r.expires_at)
    (hfile : os.isfile (os.abspath path) = true) :
    ∃ db', add_authorization os db path ttl now fresh
        = some (db', r.token, os.basename (os.abspath path), false) ∧
      (∀ r' ∈ db', r'.token = r.token → r'.expires_at = now + ttl) ∧
      db'.map Auth.token = db.map Auth.token := by
  have hsome : (db.find?
      (fun x => x.filepath == os.abspath path && decide (now < x.expires_at))).isSome :=
    List.find?_isSome.mpr ⟨r, hmem, by simp [hpath, hlive]⟩
  obtain ⟨row, hfind⟩ := Option.isSome_iff_exists.mp hsome
  have hrowmem := List.mem_of_find?_eq_some hfind
  have hrowpred := List.find?_some hfind
  simp only [Bool.and_eq_true, beq_iff_eq, decide_eq_true_eq] at hrowpred
  have hrow_eq : row = r :=
    hamol row hrowmem r hmem (hrowpred.1.trans hpath.symm) hrowpred.2 hlive
  subst hrow_eq
  unfold add_authorization
  rw [if_neg (by simp [hfile]), hfind]
  refine ⟨_, rfl, ?_, map_update_tokens db row.token (now + ttl)⟩
  intro r' hr' htk
  rw [List.mem_map] at hr'
  obtain ⟨s, hs, rfl⟩ := hr'
  rw [sql_update_expiry_token] at htk
  exact sql_update_expiry_expires_of_eq _ htk

/-- C3 witness: the concrete re-issue of the counterexample, through the
amended theorem. -/
theorem c3_extend_sets_now_plus_ttl_witness :
    ∃ db', add_authorization os0 [⟨"t1", "/a", "a", 0, 100⟩] "/a" 10 1 "t2"
        = some (db', "t1", "/a", false) ∧
      (∀ r' ∈ db', r'.token = "t1" → r'.expires_at = 1 + 10) ∧
      db'.map Auth.token = [(⟨"t1", "/a", "a", 0, 100⟩ : Auth)].map Auth.token :=
  c3_extend_sets_now_plus_ttl os0 [⟨"t1", "/a", "a", 0, 100⟩] "/a" 10 1 "t2"
    ⟨"t1", "/a", "a", 0, 100⟩
    (by
      intro r1 h1 r2 h2 _ _ _
      rw [List.mem_singleton] at h1 h2
      rw [h1, h2])
    (List.mem_singleton_self _) rfl (by decide) rfl

/-- C7: the file-route maps `notFound` to a 404 client error, `expired` to
the HTTP-200 expired notice built from the stored display name alone (the
`expiredPage` constructor carries only `row.filename`, never `row.filepath`),
and `valid`-but-file-gone to a 404 whose message differs from the
unknown-token message; a delegation to a renderer happens only for a `valid`
status with the backing file present, and the rendered path is the stored
one. -/
theorem c7_router_outcomes (os : OS) (db : List Auth) (now : ℤ)
    (tok fn : String) (headQ tailQ : Option String) :
    ((lookup_authorization db tok now).2 = LookupStatus.notFound →
      serve_file os db now tok fn headQ tailQ = Response.abort 404 "Not found") ∧
    (∀ row, lookup_authorization db tok now = (some row, LookupStatus.expired) →
      serve_file os db now tok fn headQ tailQ = Response.expiredPage row.filename ∧
      (Response.expiredPage row.filename).httpStatus = 200) ∧
    (∀ row, lookup_authorization db tok now = (some row, LookupStatus.valid) →
      os.isfile row.filepath = false →
      serve_file os db now tok fn headQ tailQ
          = Response.abort 404 "File no longer exists on disk" ∧
      ("File no longer exists on disk" : String) ≠ "Not found") ∧
    (∀ p h? t?, serve_file os db now tok fn headQ tailQ = Response.rendered p h? t? →
      ∃ row, lookup_authorization db tok now = (some row, LookupStatus.valid) ∧
        os.isfile row.filepath = true ∧ p = row.filepath) := by
  cases hl : lookup_authorization db tok now with
  | mk row? status =>
    refine ⟨?_, ?_, ?_, ?_⟩
    · intro h
      simp only at h
      subst h
      simp [serve_file, hl]
    · intro row hrow
      rw [Prod.mk.injEq] at hrow
      obtain ⟨rfl, rfl⟩ := hrow
      refine ⟨?_, rfl⟩
      simp [serve_file, hl]
    · intro row hrow hfile
      rw [Prod.mk.injEq] at hrow
      obtain ⟨rfl, rfl⟩ := hrow
      refine ⟨?_, by decide⟩
      simp [serve_file, hl, hfile]
    · intro p h? t? hs
      cases status with
      | notFound => simp [serve_file, hl] at hs
      | expired =>
          cases row? with
          | none => simp [serve_file, hl] at hs
          | some row => simp [serve_file, hl] at hs
      | valid =>
          cases row? with
          | none => simp [serve_file, hl] at hs
          | some row =>
              by_cases hfile : os.isfile row.filepath = false
              · simp [serve_file, hl, hfile] at hs
              · cases hp : parse_window_param headQ with
                | error e => simp [serve_file, hl, hfile, hp] at hs
                | ok h1 =>
                    cases hq : parse_window_param tailQ with
                    | error e => simp [serve_file, hl, hfile, hp, hq] at hs
                    | ok t1 =>
                        simp only [serve_file, hl, hfile, hp, hq, reduceCtorEq,
                          if_false, Bool.false_eq_true, Response.rendered.injEq] at hs
                        exact ⟨row, rfl,
                          Or.resolve_right (Bool.eq_false_or_eq_true _) hfile,
                          hs.1.symm⟩

/-- C7 witness: an expired token serves the expired notice named by the
stored display name, and an unknown token serves the 404. -/
theorem c7_router_outcomes_witness :
    serve_file os0 [⟨"t1", "/a", "report.txt", 0, 5⟩] 6 "t1" "report.txt" none none
        = Response.expiredPage "report.txt" ∧
    serve_file os0 [] 0 "zz" "x" none none = Response.abort 404 "Not found" := by
  constructor
  · exact ((c7_router_outcomes os0 [⟨"t1", "/a", "report.txt", 0, 5⟩] 6 "t1"
      "report.txt" none none).2.1 ⟨"t1", "/a", "report.txt", 0, 5⟩ (by decide)).1
  · exact (c7_router_outcomes os0 [] 0 "zz" "x" none none).1 (by decide)

/-- C8 counterexample: with a valid token for an existing file, the query
value `head=-3` is forwarded to the renderer as the negative integer −3
(neither rejected nor treated as absent), and the non-integer value `head=x`
raises an uncaught `ValueError` (HTTP 500) instead of being treated as
absent — refuting "validated as non-negative integers or treated as absent".
-/
theorem c8_counterexample :
    serve_file os0 [⟨"t1", "/a", "a", 0, 10⟩] 0 "t1" "a" (some "-3") (some "5")
        = Response.rendered "/a" (some (-3)) (some 5) ∧
    ¬ ((0 : Int) ≤ -3) ∧
    serve_file os0 [⟨"t1", "/a", "a", 0, 10⟩] 0 "t1" "a" (some "x") none
        = Response.serverError := by decide

/-- C8 (amended): for a valid token with the backing file present, the `head`
and `tail` query values are parsed with Python `int` when present and
non-empty (absent or empty means absent); a non-integer value raises an
uncaught error (HTTP 500) rather than being treated as absent, and parsed
values — negative ones included — are forwarded to the renderer unvalidated;
when both windows are given, `head` takes precedence and the tail window is
ignored. -/
theorem c8_window_params_amended (os : OS) (db : List Auth) (now : ℤ)
    (tok fn : String) (row : Auth)
    (hl : lookup_authorization db tok now = (some row, LookupStatus.valid))
    (hfile : os.isfile row.filepath = true) :
    serve_file os db now tok fn none none = Response.rendered row.filepath none none ∧
    (∀ tailQ, serve_file os db now tok fn (some "") tailQ
        = serve_file os db now tok fn none tailQ) ∧
    (∀ s n, pyInt s = some n →
      serve_file os db now tok fn (some s) none
          = Response.rendered row.filepath (some n) none) ∧
    (∀ s tailQ, pyInt s = none → s ≠ "" →
      serve_file os db now tok fn (some s) tailQ = Response.serverError) ∧
    (∀ lines h t?, render_lines lines (some h) t? = render_lines lines (some h) none) := by
  have hnf : os.isfile row.filepath = false ↔ False := by simp [hfile]
  refine ⟨?_, ?_, ?_, ?_, ?_⟩
  · simp [serve_file, hl, hnf, parse_window_param]
  · intro tailQ
    simp [serve_file, hl, hnf, parse_window_param]
  · intro s n hs
    have hne : ¬ s = "" := by
      intro h
      subst h
      simp [pyInt, isDigits] at hs
    simp [serve_file, hl, hnf, parse_window_param, hne, hs]
  · intro s tailQ hs hne
    simp [serve_file, hl, hnf, parse_window_param, hne, hs]
  · intro lines h t?
    rfl

/-- C8 witness: the no-parameter case and the negative-`head` case at a
concrete valid state. -/
theorem c8_window_params_amended_witness :
    serve_file os0 [⟨"t1", "/a", "a", 0, 10⟩] 0 "t1" "a" none none
        = Response.rendered "/a" none none ∧
    serve_file os0 [⟨"t1", "/a", "a", 0, 10⟩] 0 "t1" "a" (some "-3") none
        = Response.rendered "/a" (some (-3)) none := by
  have h := c8_window_params_amended os0 [⟨"t1", "/a", "a", 0, 10⟩] 0 "t1" "a"
    ⟨"t1", "/a", "a", 0, 10⟩ (by decide) (by decide)
  exact ⟨h.1, h.2.2.1 "-3" (-3) (by decide)⟩

/-- C9 counterexample: revoking the unknown token `deadbeef` reports "Token
not found" on stderr and leaves the store unchanged, but the command exits
with code 0, refuting the claimed non-zero exit code (the `revoke` command
never calls `sys.exit`). -/
theorem c9_counterexample :
    (cli_revoke [] "deadbeef").stderr = ["Token not found: deadbeef"] ∧
    (cli_revoke [] "deadbeef").db = [] ∧
    ¬ (cli_revoke [] "deadbeef").exitCode ≠ 0 := by decide

/-- C9 (amended): for every token with no record, the CLI revoke reports
"Token not found" on stderr, leaves the store unchanged — and exits with
code 0, not a non-zero code. -/
theorem c9_revoke_unknown_amended (db : List Auth) (tok : String)
    (h : ∀ r ∈ db, r.token ≠ tok) :
    cli_revoke db tok
      = { db := db, stdout := [], stderr := ["Token not found: " ++ tok],
          exitCode := 0 } := by
  have hrm : remove_authorization db tok = (db, false) := by
    unfold remove_authorization
    rw [List.filter_eq_self.mpr fun r hr => by simpa using h r hr]
    rw [List.any_eq_false.mpr fun r hr => by simpa using h r hr]
  unfold cli_revoke
  rw [hrm]
  rfl

/-- C9 witness: the `deadbeef` scenario through the amended theorem. -/
theorem c9_revoke_unknown_amended_witness :
    cli_revoke [] "deadbeef"
      = { db := [], stdout := [], stderr := ["Token not found: deadbeef"],
          exitCode := 0 } :=
  c9_revoke_unknown_amended [] "deadbeef" (by simp)

/-- C10: revocation operates on the file-authorization table only
(`remove_authorization` runs a single DELETE on `authorizations`; in the
embedding its state is the file table alone, and the `Reachable.revoke` step
carries the git table across unchanged).  For a token present only in the
git store, revoke deletes nothing (the file table is returned unchanged),
reports false, and the git record remains in place and queryable. -/
theorem c10_revoke_git_frame (f : List Auth) (g : List GitAuth) (tok : String) (now : ℤ)
    (hnotfile : ∀ r ∈ f, r.token ≠ tok) (hgit : ∃ r ∈ g, r.token = tok) :
    (remove_authorization f tok).2 = false ∧
    (remove_authorization f tok).1 = f ∧
    ∃ row ∈ g, row.token = tok ∧
      ((lookup_git_authorization g tok now).1 = some row ∧
        (lookup_git_authorization g tok now).2 ≠ LookupStatus.notFound) := by
  refine ⟨?_, ?_, ?_⟩
  · unfold remove_authorization
    exact List.any_eq_false.mpr fun r hr => by simpa using hnotfile r hr
  · unfold remove_authorization
    exact List.filter_eq_self.mpr fun r hr => by simpa using hnotfile r hr
  · obtain ⟨r, hr, htk⟩ := hgit
    have hsome : (g.find? (fun x => x.token == tok)).isSome :=
      List.find?_isSome.mpr ⟨r, hr, by simp [htk]⟩
    obtain ⟨row, hfind⟩ := Option.isSome_iff_exists.mp hsome
    have hrowmem := List.mem_of_find?_eq_some hfind
    have hrowtok : row.token = tok := by simpa using List.find?_some hfind
    refine ⟨row, hrowmem, hrowtok, ?_⟩
    by_cases hgt : row.expires_at < now
    · have hlk : lookup_git_authorization g tok now = (some row, LookupStatus.expired) := by
        unfold lookup_git_authorization
        rw [hfind]
        simp [hgt]
      rw [hlk]
      exact ⟨rfl, by simp⟩
    · have hlk : lookup_git_authorization g tok now = (some row, LookupStatus.valid) := by
        unfold lookup_git_authorization
        rw [hfind]
        simp [hgt]
      rw [hlk]
      exact ⟨rfl, by simp⟩

/-- C10 witness: revoking a git-issued token at a state holding one file
authorization and one git authorization. -/
theorem c10_revoke_git_frame_witness :
    (remove_authorization [⟨"aaaa1111", "/a", "a", 0, 10⟩] "bbbb2222").2 = false ∧
    (remove_authorization [⟨"aaaa1111", "/a", "a", 0, 10⟩] "bbbb2222").1
        = [⟨"aaaa1111", "/a", "a", 0, 10⟩] ∧
    ∃ row ∈ [(⟨"bbbb2222", "/repo", "c0ffee", 0, 10⟩ : GitAuth)], row.token = "bbbb2222" ∧
      ((lookup_git_authorization [⟨"bbbb2222", "/repo", "c0ffee", 0, 10⟩] "bbbb2222" 1).1
          = some row ∧
        (lookup_git_authorization [⟨"bbbb2222", "/repo", "c0ffee", 0, 10⟩] "bbbb2222" 1).2
          ≠ LookupStatus.notFound) :=
  c10_revoke_git_frame [⟨"aaaa1111", "/a", "a", 0, 10⟩]
    [⟨"bbbb2222", "/repo", "c0ffee", 0, 10⟩] "bbbb2222" 1
    (by simp) ⟨⟨"bbbb2222", "/repo", "c0ffee", 0, 10⟩, List.mem_singleton_self _, rfl⟩

end Vibefs
